import Mathlib

/-!
Verification of the vix.cpp ORM core (connection pool, transaction guard,
file migrations runner, SHA-256 checksum engine) against its specification.

Each definition is a shallow embedding of the corresponding C++ function,
translated statement by statement from the source files:
  src/src/ConnectionPool.cpp, src/include/vix/orm/Transaction.hpp,
  FileMigrationsRunner.cpp, src/src/Sha256.cpp.
-/

namespace VixOrm

/-! ## ConnectionPool (src/src/ConnectionPool.cpp, ConnectionPool.hpp)

The pool state is `idle_` (queue of idle connections, modelled by its size),
`total_` (count of connections ever created), plus, for bookkeeping of the
clients, the number of connections currently checked out (`inUse`).  The
configuration is `PoolConfig {min, max}`.  Connections themselves are opaque,
so only the counts are observable. -/

structure PoolConfig where
  min : Nat
  max : Nat
  deriving Repr, DecidableEq

structure PoolState where
  idle : Nat
  inUse : Nat
  total : Nat
  deriving Repr, DecidableEq

def freshPool : PoolState := { idle := 0, inUse := 0, total := 0 }

/-- Outcome of one `acquire()` call, in a sequential trace semantics. -/
inductive AcquireResult where
  | reused
  | created
  | factoryFailed
  | wouldBlock
  deriving Repr, DecidableEq

/-- `ConnectionPool::acquire()` (ConnectionPool.cpp lines 17–41), with the
factory call's success given by `factoryOk`.  Mirrors the source exactly:
if `idle_` is non-empty, pop and return it; else if `total_ < cfg_.max`,
increment `total_`, unlock, and call the factory — the source has NO
try/catch here, so on factory failure `total_` stays incremented and the
exception propagates; else wait on the condition variable (in a sequential
trace no connection can appear, so the state is unchanged). -/
def acquire (cfg : PoolConfig) (factoryOk : Bool) (s : PoolState) :
    AcquireResult × PoolState :=
  if s.idle > 0 then
    (.reused, { s with idle := s.idle - 1, inUse := s.inUse + 1 })
  else if s.total < cfg.max then
    if factoryOk then
      (.created, { s with total := s.total + 1, inUse := s.inUse + 1 })
    else
      (.factoryFailed, { s with total := s.total + 1 })
  else
    (.wouldBlock, s)

/-- `ConnectionPool::release(c)` (ConnectionPool.cpp lines 43–51): pushes a
non-null connection back onto `idle_`.  In a well-formed trace the released
connection is one the caller previously acquired, so a release with
`inUse > 0` moves one connection from in-use to idle; releasing when the
caller holds nothing is the null no-op of the source. -/
def release (s : PoolState) : PoolState :=
  if s.inUse > 0 then
    { s with idle := s.idle + 1, inUse := s.inUse - 1 }
  else
    s

/-- `ConnectionPool::warmup()` (ConnectionPool.cpp lines 53–63): creates
`cfg_.min` connections via the factory and pushes them onto `idle_`,
incrementing `total_` each time.  The source performs NO check of
`total_ < cfg_.max` here. -/
def warmup (cfg : PoolConfig) (s : PoolState) : PoolState :=
  { s with idle := s.idle + cfg.min, total := s.total + cfg.min }

/-- One pool operation of a client trace. -/
inductive PoolOp where
  | acquireOp (factoryOk : Bool)
  | releaseOp
  | warmupOp
  deriving Repr, DecidableEq

def applyOp (cfg : PoolConfig) (s : PoolState) : PoolOp → PoolState
  | .acquireOp ok => (acquire cfg ok s).2
  | .releaseOp => release s
  | .warmupOp => warmup cfg s

/-- The pool state after executing a sequence of operations from a fresh pool. -/
def execTrace (cfg : PoolConfig) (ops : List PoolOp) : PoolState :=
  ops.foldl (applyOp cfg) freshPool

/-- The invariant claimed by the spec: `idle.size() <= total <= max`. -/
def poolInvariant (cfg : PoolConfig) (s : PoolState) : Prop :=
  s.idle ≤ s.total ∧ s.total ≤ cfg.max

instance (cfg : PoolConfig) (s : PoolState) : Decidable (poolInvariant cfg s) := by
  unfold poolInvariant
  infer_instance

/-- The strengthened inductive invariant for warmup-free traces. -/
def poolStrongInv (cfg : PoolConfig) (s : PoolState) : Prop :=
  s.idle + s.inUse ≤ s.total ∧ s.total ≤ cfg.max

/-! ## Transaction (src/include/vix/orm/Transaction.hpp)

A `Transaction` holds a pooled connection and a flag `active_`, initially
`true`.  The observable effect on the underlying connection is the list of
calls made to it (`begin`, `commit`, `rollback`); whether a given underlying
call throws is an input of the model.  An operation returns the new
transaction state, the calls it made on the connection, and whether an
exception escaped the operation. -/

inductive ConnCall where
  | beginCall
  | commitCall
  | rollbackCall
  deriving Repr, DecidableEq

structure Tx where
  active : Bool
  deriving Repr, DecidableEq

/-- The constructor (Transaction.hpp lines 26–30): acquires the pooled
connection, calls `begin()`, and starts with `active_ = true`. -/
def txInit : Tx × List ConnCall := ({ active := true }, [ConnCall.beginCall])

/-- `Transaction::commit()` (Transaction.hpp lines 44–48):
`pooled_.get().commit(); active_ = false;`.  If the underlying commit
throws, the exception propagates and the assignment to `active_` is never
reached. -/
def txCommit (commitThrows : Bool) (t : Tx) : Tx × List ConnCall × Bool :=
  if commitThrows then
    (t, [ConnCall.commitCall], true)
  else
    ({ active := false }, [ConnCall.commitCall], false)

/-- `Transaction::rollback()` (Transaction.hpp lines 50–54):
`pooled_.get().rollback(); active_ = false;`.  Note: the source has NO
guard on `active_` here — the underlying rollback is executed
unconditionally.  If it throws, the exception propagates and `active_` is
unchanged. -/
def txRollback (rollbackThrows : Bool) (t : Tx) : Tx × List ConnCall × Bool :=
  if rollbackThrows then
    (t, [ConnCall.rollbackCall], true)
  else
    ({ active := false }, [ConnCall.rollbackCall], false)

/-- `Transaction::~Transaction()` (Transaction.hpp lines 32–42): if still
`active_`, calls `pooled_.get().rollback()` inside `try { } catch (...) {}`,
so the rollback call is made but no exception ever escapes (the returned
Bool, "exception escaped", is always `false`). -/
def txDtor (rollbackThrows : Bool) (t : Tx) : List ConnCall × Bool :=
  if t.active then
    (if rollbackThrows then ([ConnCall.rollbackCall], false)
     else ([ConnCall.rollbackCall], false))
  else
    ([], false)

/-! ## FileMigrationsRunner: trim and splitStatements (FileMigrationsRunner.cpp)

`trim` (lines 42–53) strips leading and trailing characters for which
`std::isspace` holds (C locale: space, \t, \n, \v, \f, \r).
`splitStatements` (lines 55–88) splits at each `;` that is outside single-
and double-quoted regions, trims each piece, and drops empty pieces; the
trailing piece after the last `;` is also emitted when non-empty. -/

/-- `std::isspace` in the C locale. -/
def isWs (c : Char) : Bool :=
  c = ' ' || c = '\t' || c = '\n' || c = '\x0b' || c = '\x0c' || c = '\r'

/-- Drop leading whitespace (the first while-loop of `trim`). -/
def trimL : List Char → List Char
  | [] => []
  | c :: cs => if isWs c then trimL cs else c :: cs

/-- `FileMigrationsRunner::trim` (lines 42–53): drop leading then trailing
whitespace (the second while-loop pops from the back, modelled by reversing,
dropping leading, reversing back). -/
def trim (l : List Char) : List Char :=
  (trimL (trimL l).reverse).reverse

/-- The scanning loop of `splitStatements` (lines 61–87).  `in_sq`/`in_dq`
are the quote flags, `cur` the current accumulated statement text.  On each
character the source first toggles `in_sq` (if the char is `'` and not in a
double-quoted region), then toggles `in_dq` (if the char is `"` and not in a
single-quoted region), then tests `c == ';'` against the updated flags. -/
def nextSq (c : Char) (in_sq in_dq : Bool) : Bool :=
  if c = '\'' && !in_dq then !in_sq else in_sq

def nextDq (c : Char) (sq in_dq : Bool) : Bool :=
  if c = '"' && !sq then !in_dq else in_dq

def isBoundary (c : Char) (sq dq : Bool) : Bool :=
  c = ';' && !sq && !dq

def splitGo : Bool → Bool → List Char → List Char → List (List Char)
  | _, _, cur, [] =>
    let last := trim cur
    if last = [] then [] else [last]
  | in_sq, in_dq, cur, c :: rest =>
    let sq := nextSq c in_sq in_dq
    let dq := nextDq c sq in_dq
    if isBoundary c sq dq then
      let stmt := trim cur
      if stmt = [] then splitGo sq dq [] rest
      else stmt :: splitGo sq dq [] rest
    else
      splitGo sq dq (cur ++ [c]) rest

/-- `FileMigrationsRunner::splitStatements` (lines 55–88). -/
def splitStatements (sql : List Char) : List (List Char) :=
  splitGo false false [] sql

/-- String-level wrapper matching the `std::string` interface of the source. -/
def splitStatementsStr (sql : String) : List String :=
  (splitStatements sql.data).map fun l => ⟨l⟩

/-- The content of `cur` when the scanning loop of `splitStatements` reaches
end of input: the final fragment after the last statement-boundary
semicolon (the text lines 84–87 of the source handle after the loop).  It
follows the exact branch structure of `splitGo`, only without emitting. -/
def finalFrag : Bool → Bool → List Char → List Char → List Char
  | _, _, cur, [] => cur
  | in_sq, in_dq, cur, c :: rest =>
    let sq := nextSq c in_sq in_dq
    let dq := nextDq c sq in_dq
    if isBoundary c sq dq then finalFrag sq dq [] rest
    else finalFrag sq dq (cur ++ [c]) rest

/-! ## FileMigrationsRunner: applyAll and rollback (FileMigrationsRunner.cpp)

The tracking table (`ensureTable`, lines 19–30, a CREATE TABLE IF NOT
EXISTS — pure DDL, no observable effect in the model) holds rows
`(id, checksum, applied_at)`.  A `MigrationPair` carries the id, the up
script text, the optional down script text (absent when there is no
`.down.sql`) and the checksum of the up script computed by `scanPairs`.
Statement execution against the connection is modelled as succeeding and is
observed as the list of executed statements; the per-error throw sites of
the source (all `DBError` with distinct messages) become the constructors
of `MigErr`. -/

structure MigRecord where
  id : String
  checksum : String
  appliedAt : String
  deriving Repr, DecidableEq

structure MigrationPair where
  id : String
  upSql : String
  downSql : Option String
  upChecksum : String
  deriving Repr, DecidableEq

/-- The distinct `throw DBError(...)` sites of applyAll/rollback. -/
inductive MigErr where
  | drift (id dbChecksum fileChecksum : String)
  | nothingToRollback
  | pairNotFound (id : String)
  | missingDown (id : String)
  deriving Repr, DecidableEq

/-- The message text of each throw site, as built in the source. -/
def migErrMessage : MigErr → String
  | .drift id dbc filec =>
    "Migration already applied but checksum changed: " ++ id ++
      "\n  db:  " ++ dbc ++ "\n  file:" ++ filec
  | .nothingToRollback => "No applied migrations to rollback."
  | .pairNotFound id => "Cannot rollback: migration files not found for id: " ++ id
  | .missingDown id => "Cannot rollback: missing .down.sql for migration: " ++ id

/-- `now_text()` (lines 12–17). -/
def now_text : String := "now"

abbrev TrackingTable := List MigRecord

/-- `FileMigrationsRunner::isApplied` (lines 169–182): the checksum of the
record with this id, when present. -/
def isApplied (table : TrackingTable) (id : String) : Option String :=
  (table.find? fun r => r.id = id).map fun r => r.checksum

/-- `FileMigrationsRunner::markApplied` (lines 184–191): INSERT the row. -/
def markApplied (table : TrackingTable) (id checksum : String) : TrackingTable :=
  table ++ [{ id := id, checksum := checksum, appliedAt := now_text }]

/-- `FileMigrationsRunner::unmarkApplied` (lines 193–198): DELETE WHERE id = ?. -/
def unmarkApplied (table : TrackingTable) (id : String) : TrackingTable :=
  table.filter fun r => r.id ≠ id

/-- `FileMigrationsRunner::lastAppliedId` (lines 200–208):
SELECT id ORDER BY id DESC LIMIT 1, i.e. the lexicographically greatest id
in the tracking table, `none` when the table is empty. -/
def lastAppliedId (table : TrackingTable) : Option String :=
  table.foldl (fun acc r =>
    match acc with
    | none => some r.id
    | some a => some (if a < r.id then r.id else a)) none

/-- One iteration of the applyAll loop (lines 217–251) for pair `m`:
if a tracking record exists, equal checksums skip the pair (no statement
executed), different checksums throw the drift error; otherwise
begin / execute the split up-script / insert the record / commit.
Returns the new table and the statements executed against the connection. -/
def applyOne (table : TrackingTable) (m : MigrationPair) :
    Except MigErr (TrackingTable × List String) :=
  match isApplied table m.id with
  | some existing =>
    if existing = m.upChecksum then .ok (table, [])
    else .error (.drift m.id existing m.upChecksum)
  | none =>
    .ok (markApplied table m.id m.upChecksum, splitStatementsStr m.upSql)

/-- `FileMigrationsRunner::applyAll` (lines 212–252), given the scanned
pairs in ascending id order: fold `applyOne` over the pairs, halting at the
first error (the source throws out of the loop). -/
def applyAll (table : TrackingTable) :
    List MigrationPair → Except MigErr (TrackingTable × List String)
  | [] => .ok (table, [])
  | m :: rest =>
    match applyOne table m with
    | .error e => .error e
    | .ok (table1, stmts) =>
      match applyAll table1 rest with
      | .error e => .error e
      | .ok (table2, stmts2) => .ok (table2, stmts ++ stmts2)

/-- One iteration of the rollback loop (lines 267–299): find the last
applied id (error when the table is empty), look up its pair in the scanned
map (error when the files are gone), require a down script (error when
missing), then begin / execute the split down-script / delete the record /
commit. -/
def rollbackStep (pairs : List MigrationPair) (table : TrackingTable) :
    Except MigErr (TrackingTable × List String) :=
  match lastAppliedId table with
  | none => .error .nothingToRollback
  | some id =>
    match pairs.find? fun p => p.id = id with
    | none => .error (.pairNotFound id)
    | some m =>
      match m.downSql with
      | none => .error (.missingDown id)
      | some dsql => .ok (unmarkApplied table id, splitStatementsStr dsql)

def rollbackLoop (pairs : List MigrationPair) :
    Nat → TrackingTable → Except MigErr (TrackingTable × List String)
  | 0, table => .ok (table, [])
  | k + 1, table =>
    match rollbackStep pairs table with
    | .error e => .error e
    | .ok (table1, stmts) =>
      match rollbackLoop pairs k table1 with
      | .error e => .error e
      | .ok (table2, stmts2) => .ok (table2, stmts ++ stmts2)

/-- `FileMigrationsRunner::rollback(int steps)` (lines 254–300): no-op when
`steps <= 0`, otherwise `steps` iterations of the rollback loop, halting at
the first error. -/
def rollbackN (pairs : List MigrationPair) (steps : Int)
    (table : TrackingTable) : Except MigErr (TrackingTable × List String) :=
  if steps ≤ 0 then .ok (table, [])
  else rollbackLoop pairs steps.toNat table

/-! ## Sha256 (src/src/Sha256.cpp)

A byte-level embedding of the streaming SHA-256 implementation.  All 32-bit
arithmetic of the source (`std::uint32_t`) is modelled on `Nat` with an
explicit reduction modulo 2^32; bytes are `Nat` values below 256. -/

def w32 (x : Nat) : Nat := x % 4294967296

/-- `rotr` (Sha256.cpp line 16): `(x >> n) | (x << (32 - n))` on uint32. -/
def rotr (n x : Nat) : Nat := w32 ((x >>> n) ||| (x <<< (32 - n)))

/-- `ch` (line 17): `(x & y) ^ (~x & z)`; on uint32, `~x` is `x ^ 0xffffffff`. -/
def ch (x y z : Nat) : Nat := (x &&& y) ^^^ ((x ^^^ 4294967295) &&& z)

/-- `maj` (line 18). -/
def maj (x y z : Nat) : Nat := (x &&& y) ^^^ (x &&& z) ^^^ (y &&& z)

/-- `s0` (line 19). -/
def sig0 (x : Nat) : Nat := rotr 7 x ^^^ rotr 18 x ^^^ (x >>> 3)

/-- `s1` (line 20). -/
def sig1 (x : Nat) : Nat := rotr 17 x ^^^ rotr 19 x ^^^ (x >>> 10)

/-- `S0` (line 21). -/
def bigS0 (x : Nat) : Nat := rotr 2 x ^^^ rotr 13 x ^^^ rotr 22 x

/-- `S1` (line 22). -/
def bigS1 (x : Nat) : Nat := rotr 6 x ^^^ rotr 11 x ^^^ rotr 25 x

/-- The round-constant table `K` (lines 6–14), values written in decimal
(the source writes them in hex). -/
def K : List Nat :=
  [1116352408, 1899447441, 3049323471, 3921009573, 961987163, 1508970993,
   2453635748, 2870763221, 3624381080, 310598401, 607225278, 1426881987,
   1925078388, 2162078206, 2614888103, 3248222580, 3835390401, 4022224774,
   264347078, 604807628, 770255983, 1249150122, 1555081692, 1996064986,
   2554220882, 2821834349, 2952996808, 3210313671, 3336571891, 3584528711,
   113926993, 338241895, 666307205, 773529912, 1294757372, 1396182291,
   1695183700, 1986661051, 2177026350, 2456956037, 2730485921, 2820302411,
   3259730800, 3345764771, 3516065817, 3600352804, 4094571909, 275423344,
   430227734, 506948616, 659060556, 883997877, 958139571, 1322822218,
   1537002063, 1747873779, 1955562222, 2024104815, 2227730452, 2361852424,
   2428436474, 2756734187, 3204031479, 3329325298]

/-- The eight 32-bit state words `state_[0..7]` as `a..h`. -/
structure Hs where
  a : Nat
  b : Nat
  c : Nat
  d : Nat
  e : Nat
  f : Nat
  g : Nat
  h : Nat
  deriving Repr, DecidableEq

/-- `Sha256::reset` (lines 24–29): the initial hash state, values written
in decimal (the source writes them in hex). -/
def initHs : Hs :=
  { a := 1779033703, b := 3144134277, c := 1013904242, d := 2773480762,
    e := 1359893119, f := 2600822924, g := 528734635, h := 1541459225 }

/-- The 16 big-endian 32-bit loads of `transform` (lines 50–56). -/
def loadWords : List Nat → List Nat
  | x0 :: x1 :: x2 :: x3 :: rest =>
    ((x0 <<< 24) ||| (x1 <<< 16) ||| (x2 <<< 8) ||| x3) :: loadWords rest
  | _ => []

/-- The message-schedule extension (lines 57–58), carried as the reversed
list of words computed so far: `m[i] = s1(m[i-2]) + m[i-7] + s0(m[i-15]) +
m[i-16]` on uint32. -/
def extendSched : List Nat → Nat → List Nat
  | rev, 0 => rev
  | rev, k + 1 =>
    extendSched
      (w32 (sig1 (rev.getD 1 0) + rev.getD 6 0 + sig0 (rev.getD 14 0) +
        rev.getD 15 0) :: rev) k

/-- The full 64-word message schedule `m` of a 64-byte block. -/
def msched (block : List Nat) : List Nat :=
  (extendSched (loadWords block).reverse 48).reverse

/-- One compression round (lines 63–75) with round constant `ki` and
schedule word `mi`. -/
def round (st : Hs) (ki mi : Nat) : Hs :=
  let t1 := w32 (st.h + bigS1 st.e + ch st.e st.f st.g + ki + mi)
  let t2 := w32 (bigS0 st.a + maj st.a st.b st.c)
  { a := w32 (t1 + t2), b := st.a, c := st.b, d := st.c,
    e := w32 (st.d + t1), f := st.e, g := st.f, h := st.g }

/-- `Sha256::transform` (lines 46–85): 64 rounds then the feed-forward
additions into the state. -/
def transform (st : Hs) (block : List Nat) : Hs :=
  let ms := msched block
  let r := (K.zip ms).foldl (fun s p => round s p.1 p.2) st
  { a := w32 (st.a + r.a), b := w32 (st.b + r.b), c := w32 (st.c + r.c),
    d := w32 (st.d + r.d), e := w32 (st.e + r.e), f := w32 (st.f + r.f),
    g := w32 (st.g + r.g), h := w32 (st.h + r.h) }

/-- The streaming context: `bitlen_`, `buffer_` (with `buffer_len_` its
length) and `state_`. -/
structure Sha256Ctx where
  bitlen : Nat
  buffer : List Nat
  st : Hs
  deriving Repr, DecidableEq

def initCtx : Sha256Ctx := { bitlen := 0, buffer := [], st := initHs }

/-- One byte of `Sha256::update` (lines 31–44): append to the buffer; at 64
bytes run `transform`, add 512 to `bitlen_`, clear the buffer. -/
def updateByte (ctx : Sha256Ctx) (byte : Nat) : Sha256Ctx :=
  let buf := ctx.buffer ++ [byte]
  if buf.length = 64 then
    { bitlen := ctx.bitlen + 512, buffer := [], st := transform ctx.st buf }
  else
    { ctx with buffer := buf }

/-- `Sha256::update` over a byte sequence. -/
def shaUpdate (ctx : Sha256Ctx) (bytes : List Nat) : Sha256Ctx :=
  bytes.foldl updateByte ctx

/-- Pad a block with zero bytes up to `n` bytes (the while-loops of
`digest`). -/
def padTo (n : Nat) (l : List Nat) : List Nat :=
  l ++ List.replicate (n - l.length) 0

/-- The 8 big-endian length bytes of `digest` (lines 108–109). -/
def lenBytes (bits : Nat) : List Nat :=
  (List.range 8).map fun i => (bits >>> ((7 - i) * 8)) &&& 0xff

/-- The big-endian serialisation of the final state (lines 113–120). -/
def bytesOf (s : Hs) : List Nat :=
  [(s.a >>> 24) &&& 0xff, (s.a >>> 16) &&& 0xff, (s.a >>> 8) &&& 0xff, s.a &&& 0xff,
   (s.b >>> 24) &&& 0xff, (s.b >>> 16) &&& 0xff, (s.b >>> 8) &&& 0xff, s.b &&& 0xff,
   (s.c >>> 24) &&& 0xff, (s.c >>> 16) &&& 0xff, (s.c >>> 8) &&& 0xff, s.c &&& 0xff,
   (s.d >>> 24) &&& 0xff, (s.d >>> 16) &&& 0xff, (s.d >>> 8) &&& 0xff, s.d &&& 0xff,
   (s.e >>> 24) &&& 0xff, (s.e >>> 16) &&& 0xff, (s.e >>> 8) &&& 0xff, s.e &&& 0xff,
   (s.f >>> 24) &&& 0xff, (s.f >>> 16) &&& 0xff, (s.f >>> 8) &&& 0xff, s.f &&& 0xff,
   (s.g >>> 24) &&& 0xff, (s.g >>> 16) &&& 0xff, (s.g >>> 8) &&& 0xff, s.g &&& 0xff,
   (s.h >>> 24) &&& 0xff, (s.h >>> 16) &&& 0xff, (s.h >>> 8) &&& 0xff, s.h &&& 0xff]

/-- The final state computed by `Sha256::digest` (lines 87–123): append the
0x80 marker; if more than 56 bytes are now buffered, zero-pad to 64 and
transform; zero-pad to 56, append the 64-bit big-endian bit length, and
transform once more. -/
def digestState (ctx : Sha256Ctx) : Hs :=
  let totalBits := ctx.bitlen + ctx.buffer.length * 8
  let buf1 := ctx.buffer ++ [0x80]
  let step :=
    if buf1.length > 56 then (transform ctx.st (padTo 64 buf1), ([] : List Nat))
    else (ctx.st, buf1)
  transform step.1 (padTo 56 step.2 ++ lenBytes totalBits)

/-- `Sha256::digest`: the 32 output bytes. -/
def digest (ctx : Sha256Ctx) : List Nat := bytesOf (digestState ctx)

/-- The whole-message digest: reset, update, digest. -/
def sha256_bytes (msg : List Nat) : List Nat := digest (shaUpdate initCtx msg)

/-- The hex alphabet `H` of `Sha256::hex` (line 127). -/
def hexDigits : List Char := "0123456789abcdef".data

/-- The two hex characters of one byte (lines 130–134). -/
def byteHex (b : Nat) : List Char :=
  [hexDigits.getD ((b >>> 4) &&& 0xf) '0', hexDigits.getD (b &&& 0xf) '0']

/-- `Sha256::hex` applied to a digest. -/
def hexOfBytes (bytes : List Nat) : String := ⟨bytes.foldr (fun b acc => byteHex b ++ acc) []⟩

/-- `sha256_hex`, the composition used by `scanPairs` for checksums. -/
def sha256_hex (msg : List Nat) : String := hexOfBytes (sha256_bytes msg)

theorem poolStrongInv_step (cfg : PoolConfig) (s : PoolState) (op : PoolOp)
    (hop : op ≠ .warmupOp) (h : poolStrongInv cfg s) :
    poolStrongInv cfg (applyOp cfg s op) := by
  obtain ⟨h1, h2⟩ := h
  cases op with
  | acquireOp ok =>
    simp only [applyOp, acquire]
    split
    · exact ⟨by simp_all; omega, h2⟩
    · split
      · split
        · exact ⟨by simp_all, by simp_all; omega⟩
        · exact ⟨by simpa using Nat.le_succ_of_le h1, by simp_all; omega⟩
      · exact ⟨h1, h2⟩
  | releaseOp =>
    simp only [applyOp, release]
    split
    · exact ⟨by simp_all; omega, h2⟩
    · exact ⟨h1, h2⟩
  | warmupOp => exact absurd rfl hop

theorem poolStrongInv_fold (cfg : PoolConfig) (ops : List PoolOp) (s : PoolState)
    (hops : ∀ op ∈ ops, op ≠ PoolOp.warmupOp) (h : poolStrongInv cfg s) :
    poolStrongInv cfg (ops.foldl (applyOp cfg) s) := by
  induction ops generalizing s with
  | nil => exact h
  | cons op rest ih =>
    simp only [List.foldl_cons]
    exact ih _ (fun o ho => hops o (List.mem_cons_of_mem _ ho))
      (poolStrongInv_step cfg s op (hops op (List.mem_cons_self _ _)) h)

theorem total_mono_step (cfg : PoolConfig) (s : PoolState) (op : PoolOp) :
    s.total ≤ (applyOp cfg s op).total := by
  cases op with
  | acquireOp ok =>
    simp only [applyOp, acquire]
    split
    · simp
    · split
      · split <;> simp
      · simp
  | releaseOp =>
    simp only [applyOp, release]
    split <;> simp
  | warmupOp => simp [applyOp, warmup]

theorem total_mono_fold (cfg : PoolConfig) (ops : List PoolOp) (s : PoolState) :
    s.total ≤ (ops.foldl (applyOp cfg) s).total := by
  induction ops generalizing s with
  | nil => exact le_refl _
  | cons op rest ih =>
    exact le_trans (total_mono_step cfg s op) (ih _)

/-! ### Lemmas about trim and splitStatements -/

theorem trimL_suffix (l : List Char) : trimL l <:+ l := by
  induction l with
  | nil => exact List.suffix_refl _
  | cons c cs ih =>
    by_cases h : isWs c
    · simpa [trimL, h] using ih.trans (List.suffix_cons c cs)
    · simp [trimL, h]

theorem trimL_head (l : List Char) (c : Char) (cs : List Char)
    (h : trimL l = c :: cs) : isWs c = false := by
  induction l with
  | nil => simp [trimL] at h
  | cons a as ih =>
    by_cases ha : isWs a
    · exact ih (by simpa [trimL, ha] using h)
    · rw [trimL, if_neg ha] at h
      cases h
      simpa using ha

theorem trimL_idem (l : List Char) : trimL (trimL l) = trimL l := by
  cases h : trimL l with
  | nil => simp [trimL]
  | cons c cs => rw [trimL, if_neg (by simp [trimL_head l c cs h])]

theorem trimL_of_head (l : List Char)
    (h : ∀ c cs, l = c :: cs → isWs c = false) : trimL l = l := by
  cases l with
  | nil => rfl
  | cons c cs => rw [trimL, if_neg (by simp [h c cs rfl])]

theorem trim_head_notWs (l : List Char) (c : Char) (cs : List Char)
    (h : trim l = c :: cs) : isWs c = false := by
  unfold trim at h
  cases hB : trimL (trimL l).reverse with
  | nil => rw [hB] at h; simp at h
  | cons b bs =>
    rw [hB] at h
    have hsuf := trimL_suffix (trimL l).reverse
    rw [hB] at hsuf
    obtain ⟨t, ht⟩ := hsuf
    have h2 : (b :: bs).getLast? = some c := by
      rw [← List.head?_reverse, h]
      rfl
    have h3 : (trimL l).head? = some c := by
      rw [← List.getLast?_reverse, ← ht,
        List.getLast?_append_of_ne_nil t (by simp)]
      exact h2
    cases hA : trimL l with
    | nil => rw [hA] at h3; simp at h3
    | cons a as =>
      rw [hA] at h3
      simp only [List.head?_cons, Option.some.injEq] at h3
      exact h3 ▸ trimL_head l a as hA

theorem trim_idem (l : List Char) : trim (trim l) = trim l := by
  have h1 : trimL (trim l) = trim l :=
    trimL_of_head _ (fun c cs h => trim_head_notWs l c cs h)
  have h2 : (trim l).reverse = trimL (trimL l).reverse := by
    rw [trim, List.reverse_reverse]
  rw [trim, h1, h2, trimL_idem]
  rfl

theorem splitGo_mem (s : List Char) :
    ∀ (sq dq : Bool) (cur t : List Char), t ∈ splitGo sq dq cur s →
      ∃ x, t = trim x ∧ trim x ≠ [] := by
  induction s with
  | nil =>
    intro sq dq cur t ht
    simp only [splitGo] at ht
    split at ht
    next h => simp at ht
    next h =>
      simp only [List.mem_singleton] at ht
      exact ⟨cur, ht, h⟩
  | cons c rest ih =>
    intro sq dq cur t ht
    simp only [splitGo] at ht
    by_cases hb : isBoundary c (nextSq c sq dq) (nextDq c (nextSq c sq dq) dq) = true
    · rw [if_pos hb] at ht
      by_cases hnil : trim cur = []
      · rw [if_pos hnil] at ht
        exact ih _ _ _ _ ht
      · rw [if_neg hnil] at ht
        rcases List.mem_cons.mp ht with h | h
        · exact ⟨cur, h, hnil⟩
        · exact ih _ _ _ _ h
    · rw [if_neg hb] at ht
      exact ih _ _ _ _ ht

theorem splitGo_no_semi (s : List Char) :
    ∀ (sq dq : Bool) (cur : List Char), (∀ c ∈ s, c ≠ ';') →
      splitGo sq dq cur s =
        if trim (cur ++ s) = [] then [] else [trim (cur ++ s)] := by
  induction s with
  | nil => intro sq dq cur _; simp [splitGo]
  | cons c rest ih =>
    intro sq dq cur hs
    have hc : c ≠ ';' := hs c (List.mem_cons_self _ _)
    simp only [splitGo]
    rw [if_neg (by simp [isBoundary, hc])]
    rw [ih _ _ _ (fun x hx => hs x (List.mem_cons_of_mem _ hx))]
    simp

/-- C6: splitStatements respects single- and double-quoted string literals —
a semicolon inside a quoted literal is not a statement boundary; every
emitted statement is trimmed of surrounding whitespace and non-empty; and
the spec example input splits into exactly two statements, the first keeping
the quoted semicolon intact. -/
theorem splitStatements_quotes_trim :
    (∀ (sql t : List Char), t ∈ splitStatements sql → t ≠ [] ∧ trim t = t) ∧
    splitStatementsStr "INSERT INTO t VALUES ('a;b'); SELECT 1;" =
      ["INSERT INTO t VALUES ('a;b')", "SELECT 1"] := by
  constructor
  · intro sql t ht
    obtain ⟨x, rfl, hx⟩ := splitGo_mem sql false false [] t ht
    exact ⟨hx, trim_idem x⟩
  · decide

/-- C6 witness: the general statement instantiated on the input "a;b",
whose first emitted statement is "a". -/
theorem splitStatements_quotes_trim_witness :
    "a".data ≠ ([] : List Char) ∧ trim "a".data = "a".data :=
  splitStatements_quotes_trim.1 "a;b".data "a".data (by decide)

theorem splitGo_ends_with_final (s : List Char) :
    ∀ (sq dq : Bool) (cur : List Char), ∃ pre : List (List Char),
      splitGo sq dq cur s =
        pre ++ (if trim (finalFrag sq dq cur s) = [] then []
                else [trim (finalFrag sq dq cur s)]) := by
  induction s with
  | nil =>
    intro sq dq cur
    refine ⟨[], ?_⟩
    simp only [splitGo, finalFrag, List.nil_append]
  | cons c rest ih =>
    intro sq dq cur
    simp only [splitGo, finalFrag]
    by_cases hb : isBoundary c (nextSq c sq dq) (nextDq c (nextSq c sq dq) dq) = true
    · rw [if_pos hb, if_pos hb]
      obtain ⟨pre, hpre⟩ := ih (nextSq c sq dq) (nextDq c (nextSq c sq dq) dq) []
      by_cases hnil : trim cur = []
      · rw [if_pos hnil]
        exact ⟨pre, hpre⟩
      · rw [if_neg hnil]
        exact ⟨trim cur :: pre, by rw [hpre]; rfl⟩
    · rw [if_neg hb, if_neg hb]
      exact ih _ _ _

/-- C9: for every input string, splitStatements emits the final fragment
after the last boundary semicolon — the text still accumulated when the
scan ends, `finalFrag` — as its last statement whenever that fragment is
non-empty after trimming, even though it is not terminated by a semicolon;
a semicolon-free script is exactly one single trimmed statement; "A; B"
yields ["A", "B"] and "SELECT 1" yields exactly ["SELECT 1"]. -/
theorem splitStatements_final_fragment :
    (∀ sql : List Char, ∃ pre : List (List Char),
        splitStatements sql =
          pre ++ (if trim (finalFrag false false [] sql) = [] then []
                  else [trim (finalFrag false false [] sql)])) ∧
    (∀ sql : List Char, (∀ c ∈ sql, c ≠ ';') →
        splitStatements sql = if trim sql = [] then [] else [trim sql]) ∧
    splitStatementsStr "A; B" = ["A", "B"] ∧
    splitStatementsStr "SELECT 1" = ["SELECT 1"] := by
  refine ⟨fun sql => splitGo_ends_with_final sql false false [], ?_,
    by decide, by decide⟩
  intro sql h
  unfold splitStatements
  rw [splitGo_no_semi sql false false [] h]
  simp

/-- C9 witness: the semicolon-free conjunct instantiated on the input
"ab". -/
theorem splitStatements_final_fragment_witness :
    splitStatements "ab".data =
      if trim "ab".data = [] then [] else [trim "ab".data] :=
  splitStatements_final_fragment.2.1 "ab".data (by decide)

/-! ### MigrationsRunner claims -/

theorem applyAll_of_all_applied (pairs : List MigrationPair) :
    ∀ table : TrackingTable,
      (∀ m ∈ pairs, isApplied table m.id = some m.upChecksum) →
      applyAll table pairs = Except.ok (table, []) := by
  induction pairs with
  | nil => intro table _; rfl
  | cons m rest ih =>
    intro table h
    have hm := h m (List.mem_cons_self _ _)
    have hrest := ih table (fun p hp => h p (List.mem_cons_of_mem _ hp))
    simp only [applyAll, applyOne, hm]
    simp [hrest]

theorem applyAll_drift_halt (pre : List MigrationPair) :
    ∀ (table : TrackingTable) (m : MigrationPair) (post : List MigrationPair)
      (cs : String),
      (∀ p ∈ pre, isApplied table p.id = some p.upChecksum) →
      isApplied table m.id = some cs → cs ≠ m.upChecksum →
      applyAll table (pre ++ m :: post) =
        Except.error (MigErr.drift m.id cs m.upChecksum) := by
  induction pre with
  | nil =>
    intro table m post cs _ hm hne
    simp only [List.nil_append, applyAll, applyOne, hm]
    rw [if_neg hne]
  | cons p pre ih =>
    intro table m post cs hpre hm hne
    have hp := hpre p (List.mem_cons_self _ _)
    have hrec := ih table m post cs
      (fun q hq => hpre q (List.mem_cons_of_mem _ hq)) hm hne
    simp only [List.cons_append, applyAll, applyOne, hp]
    simp [hrec]

/-- C3: in applyAll, a pair whose id already has a tracking record with the
same checksum is skipped with no statements executed (so a run over a fully
applied, unchanged directory is a no-op — idempotence); a pair whose stored
checksum differs from the freshly computed up-checksum makes applyAll fail
immediately with the drift error carrying both checksums, no later
migration being processed; and the drift message names both checksums. -/
theorem applyAll_skip_and_drift :
    (∀ (table : TrackingTable) (pairs : List MigrationPair),
        (∀ m ∈ pairs, isApplied table m.id = some m.upChecksum) →
        applyAll table pairs = Except.ok (table, [])) ∧
    (∀ (table : TrackingTable) (pre : List MigrationPair) (m : MigrationPair)
        (post : List MigrationPair) (cs : String),
        (∀ p ∈ pre, isApplied table p.id = some p.upChecksum) →
        isApplied table m.id = some cs → cs ≠ m.upChecksum →
        applyAll table (pre ++ m :: post) =
          Except.error (MigErr.drift m.id cs m.upChecksum)) ∧
    (∀ id dbc filec : String,
        migErrMessage (MigErr.drift id dbc filec) =
          "Migration already applied but checksum changed: " ++ id ++
            "\n  db:  " ++ dbc ++ "\n  file:" ++ filec) :=
  ⟨fun table pairs h => applyAll_of_all_applied pairs table h,
   fun table pre m post cs h1 h2 h3 =>
     applyAll_drift_halt pre table m post cs h1 h2 h3,
   fun _ _ _ => rfl⟩

/-- C3 witness: a one-pair directory whose stored checksum "aaa" differs
from the on-disk checksum "bbb" makes applyAll fail with the drift error. -/
theorem applyAll_skip_and_drift_witness :
    applyAll [{ id := "001", checksum := "aaa", appliedAt := "now" }]
        [{ id := "001", upSql := "SELECT 1", downSql := none,
           upChecksum := "bbb" }] =
      Except.error (MigErr.drift "001" "aaa" "bbb") :=
  applyAll_skip_and_drift.2.1 _ [] _ [] "aaa" (by simp) (by decide) (by decide)

/-- C5: calling rollback(1) when the last applied migration's pair cannot
be found on disk, or when its pair has no down-script, fails with the
corresponding migration-state error (the source throws a DBError whose
message distinguishes the two sites); the result carries no table update
and no executed statement, so the tracking table is untouched. -/
theorem rollback_missing_pair_or_down :
    ∀ (pairs : List MigrationPair) (table : TrackingTable) (id : String),
      lastAppliedId table = some id →
      ((pairs.find? (fun p => p.id = id) = none →
          rollbackN pairs 1 table = Except.error (MigErr.pairNotFound id)) ∧
        (∀ m, pairs.find? (fun p => p.id = id) = some m → m.downSql = none →
          rollbackN pairs 1 table = Except.error (MigErr.missingDown id))) := by
  intro pairs table id hlast
  constructor
  · intro hfind
    simp only [rollbackN, rollbackLoop, rollbackStep, hlast, hfind]
    norm_num
  · intro m hfind hdown
    simp only [rollbackN, rollbackLoop, rollbackStep, hlast, hfind, hdown]
    norm_num

/-- C5 witness: a tracking table whose last applied id has no pair on disk
(the scanned pair list is empty) makes rollback(1) fail with the
pair-not-found error. -/
theorem rollback_missing_pair_or_down_witness :
    rollbackN [] 1 [{ id := "001", checksum := "aaa", appliedAt := "now" }] =
      Except.error (MigErr.pairNotFound "001") :=
  (rollback_missing_pair_or_down []
    [{ id := "001", checksum := "aaa", appliedAt := "now" }] "001"
    (by decide)).1 (by decide)

/-! ### Sha256 claims -/

theorem hexFold_length (bytes : List Nat) :
    (bytes.foldr (fun b acc => byteHex b ++ acc) []).length =
      2 * bytes.length := by
  induction bytes with
  | nil => rfl
  | cons b bs ih =>
    simp only [List.foldr_cons, List.length_append, ih, List.length_cons]
    simp [byteHex]
    ring

theorem getD_mem_of_mem (l : List Char) (n : Nat) (d : Char) (hd : d ∈ l) :
    l.getD n d ∈ l := by
  rw [List.getD_eq_getElem?_getD]
  cases h : l[n]? with
  | none => simpa [h] using hd
  | some x =>
    obtain ⟨hlt, rfl⟩ := List.getElem?_eq_some.mp h
    simp only [Option.getD_some]
    exact List.getElem_mem hlt

theorem mem_hexFold (bytes : List Nat) (c : Char)
    (hc : c ∈ bytes.foldr (fun b acc => byteHex b ++ acc) []) :
    c ∈ hexDigits := by
  induction bytes with
  | nil => simp at hc
  | cons b bs ih =>
    simp only [List.foldr_cons, List.mem_append] at hc
    rcases hc with h | h
    · simp only [byteHex, List.mem_cons, List.mem_singleton] at h
      rcases h with h | h | h
      · exact h ▸ getD_mem_of_mem hexDigits _ _ (by decide)
      · exact h ▸ getD_mem_of_mem hexDigits _ _ (by decide)
      · simp at h
    · exact ih h

set_option maxRecDepth 8192 in
/-- C8: the checksum engine is deterministic — the digest is a pure
function of the input bytes; its output is always a 64-character string
drawn from the lowercase hex alphabet; and hashing the empty input yields
exactly the SHA-256 digest of the empty string. -/
theorem sha256_hex_spec :
    (∀ m : List Nat, sha256_hex m = sha256_hex m) ∧
    (∀ m : List Nat, (sha256_hex m).length = 64 ∧
      ∀ c ∈ (sha256_hex m).data, c ∈ hexDigits) ∧
    sha256_hex [] =
      "e3b0c44298fc1c149afbf4c8996fb92427ae41e4649b934ca495991b7852b855" := by
  refine ⟨fun _ => rfl, fun m => ⟨?_, ?_⟩, by decide⟩
  · have hlen : (sha256_bytes m).length = 32 := rfl
    have h2 : (sha256_hex m).data =
        (sha256_bytes m).foldr (fun b acc => byteHex b ++ acc) [] := rfl
    have h3 : (sha256_hex m).length = (sha256_hex m).data.length := rfl
    rw [h3, h2, hexFold_length, hlen]
  · intro c hc
    exact mem_hexFold (sha256_bytes m) c hc

set_option maxRecDepth 8192 in
/-- C8 witness: the membership statement instantiated at the empty input
and the first digest character. -/
theorem sha256_hex_spec_witness : 'e' ∈ hexDigits :=
  (sha256_hex_spec.2.1 []).2 'e' (by decide)

/-! ### ConnectionPool claims -/

/-- C1: evaluation of `acquire` at the failing input.  On a fresh pool with
`max = 1` and a failing factory, the source increments `total_` and then
calls the factory with no try/catch, so the count is NOT compensated: the
pool ends with `total = 1` although no connection exists, and afterwards
even a succeeding factory can never be invoked again — the slot is
permanently lost (`acquire` would block forever).  This contradicts the
claimed compensation. -/
theorem acquire_factory_failure_total_leak :
    acquire { min := 1, max := 1 } false freshPool =
      (AcquireResult.factoryFailed, { idle := 0, inUse := 0, total := 1 }) ∧
    acquire { min := 1, max := 1 } true { idle := 0, inUse := 0, total := 1 } =
      (AcquireResult.wouldBlock, { idle := 0, inUse := 0, total := 1 }) := by
  constructor <;> rfl

/-- C2 counterexample: the claimed invariant fails as stated.  From a fresh
pool with `min = max = 1`, the two-operation trace `[warmup, warmup]`
reaches `total = 2 > max = 1`, because `warmup()` increments `total_` by
`cfg_.min` with no check against `cfg_.max`. -/
theorem pool_invariant_claim_false :
    ¬ (∀ (cfg : PoolConfig) (ops : List PoolOp) (i : Nat),
        poolInvariant cfg (execTrace cfg (ops.take i)) ∧
        (∀ j, i ≤ j →
          (execTrace cfg (ops.take i)).total ≤
            (execTrace cfg (ops.take j)).total)) := by
  intro h
  have h2 := (h { min := 1, max := 1 }
    [PoolOp.warmupOp, PoolOp.warmupOp] 2).1
  exact absurd h2 (by decide)

/-- C2 (amended): for every trace of acquire/release operations (no
warmup), `idle <= total <= max` holds at every observable instant; and for
every trace, including warmup, `total` only increases, never decreases.
Warmup itself can drive `total` past `max` since the source performs no
bound check there. -/
theorem pool_invariant_amended (cfg : PoolConfig) (ops : List PoolOp) :
    (PoolOp.warmupOp ∉ ops →
      ∀ i, poolInvariant cfg (execTrace cfg (ops.take i))) ∧
    (∀ i j, i ≤ j →
      (execTrace cfg (ops.take i)).total ≤
        (execTrace cfg (ops.take j)).total) := by
  constructor
  · intro hnw i
    have hstrong : poolStrongInv cfg (execTrace cfg (ops.take i)) := by
      apply poolStrongInv_fold
      · intro op hop hw
        exact hnw (List.take_subset i ops (hw ▸ hop))
      · exact ⟨by simp [freshPool], Nat.zero_le _⟩
    exact ⟨le_trans (Nat.le_add_right _ _) hstrong.1, hstrong.2⟩
  · intro i j hij
    have hsplit : ops.take j = ops.take i ++ (ops.drop i).take (j - i) := by
      rw [← List.take_add, Nat.add_sub_cancel' hij]
    unfold execTrace
    rw [hsplit, List.foldl_append]
    exact total_mono_fold cfg _ _

/-- C2 witness: the amended invariant instantiated on the warmup-free trace
[acquire, release] with the default configuration. -/
theorem pool_invariant_amended_witness :
    poolInvariant { min := 1, max := 8 }
      (execTrace { min := 1, max := 8 }
        ([PoolOp.acquireOp true, PoolOp.releaseOp].take 2)) :=
  (pool_invariant_amended { min := 1, max := 8 }
    [PoolOp.acquireOp true, PoolOp.releaseOp]).1 (by decide) 2

/-! ### Transaction claims -/

/-- C4: a Transaction constructed and never committed or rolled back is
still active, so its destructor invokes the underlying connection rollback
exactly once, and no exception escapes the destructor even when that
rollback throws. -/
theorem transaction_dtor_rolls_back_once :
    ∀ rollbackThrows : Bool,
      txDtor rollbackThrows txInit.1 = ([ConnCall.rollbackCall], false) := by
  intro b
  cases b <;> rfl

/-- C7 counterexample: after an explicit `rollback()` the transaction is in
its terminal state (`active_ = false`), yet a further `rollback()` call
still executes the underlying connection rollback — the source has no
state-flag guard inside `Transaction::rollback()`, so the second call is
not prevented. -/
theorem rollback_reexecutes_after_terminal :
    (txRollback false txInit.1).1.active = false ∧
    (txRollback false (txRollback false txInit.1).1).2.1 =
      [ConnCall.rollbackCall] := by
  constructor <;> rfl

/-- C7 (amended): only the destructor consults the `active_` flag.  An
explicit `rollback()` call after a terminal state re-executes the
underlying connection rollback; the destructor, by contrast, performs no
further rollback after an explicit `rollback()` or `commit()`. -/
theorem rollback_unguarded_amended :
    ∀ b : Bool,
      (txRollback b (txRollback false txInit.1).1).2.1 =
        [ConnCall.rollbackCall] ∧
      txDtor b (txRollback false txInit.1).1 = ([], false) ∧
      txDtor b (txCommit false txInit.1).1 = ([], false) := by
  intro b
  cases b <;> exact ⟨rfl, rfl, rfl⟩

/-- C10: when the underlying `commit()` throws inside
`Transaction::commit()`, the exception propagates, `active_` stays true
(the clearing assignment is never reached), and the destructor therefore
still invokes `rollback()` on the connection, swallowing any failure of
that rollback. -/
theorem transaction_commit_failure_dtor_rollback :
    ∀ rollbackThrows : Bool,
      (txCommit true txInit.1).1.active = true ∧
      (txCommit true txInit.1).2.2 = true ∧
      txDtor rollbackThrows (txCommit true txInit.1).1 =
        ([ConnCall.rollbackCall], false) := by
  intro b
  cases b <;> exact ⟨rfl, rfl, rfl⟩

end VixOrm
